import Mathlib

/-!
Verification of the portfolio-optimization core of the
Diversified-Educational-Portfolios-Generator repository.

The embedding translates the TypeScript sources into Lean:
  * `src/lib/engine/skill-mapper.ts` : `computeExpectedReturns`,
    `computeCovarianceMatrix`;
  * the optimize route (`optimizePortfolioTS`, `computeEfficientFrontierTS`,
    and the selection logic of the `POST` handler).

JavaScript numbers are modelled by exact rationals `ℚ`; `Math.sqrt` is
modelled by `Real.sqrt` on `ℝ` (the only irrational operation in the core).
The single place where a JavaScript `NaN` is reachable and observable
(`i / (numPoints - 1)` when `numPoints = 1`) is modelled explicitly by an
`Option ℚ` target value, `none` standing for `NaN`, whose comparisons are
always false.
-/

/-- Number of training directions (`TRAINING_DIRECTIONS.length` in
`portfolio-types`): the catalog is fixed at six entries. -/
def numDirections : ℕ := 6

/-- `rarityLabel` values of `TopicInfoSchema`. -/
inductive Rarity where
  | COMMON
  | RARE
  | NO_TOPIC
deriving DecidableEq, Repr

/-- The fields of `TopicInfo` that the engine reads (`topicNumber`, `count`,
`rarityLabel`); the presentation-only fields (`name`, `keywords`,
`representativeDocs`) are omitted because no computation touches them. -/
structure TopicInfo where
  topicNumber : ℤ
  count : ℕ
  rarityLabel : Rarity
deriving DecidableEq, Repr

/-- `Record<number, number[]>` holding, per topic id, a vector of six
affinity scores (the data model fixes rows at length `numDirections`);
a missing key is `none`. -/
def AffinityMatrix : Type := ℤ → Option (Fin numDirections → ℚ)

/-- `affinityMatrix[t]?.[d] ?? 0`: a missing row, or an index beyond the
row length, contributes `0`. -/
def affinityAt (A : AffinityMatrix) (t : ℤ) (d : ℕ) : ℚ :=
  match A t with
  | none => 0
  | some row => if h : d < numDirections then row ⟨d, h⟩ else 0

/-- `topics.filter((t) => t.topicNumber !== -1)`. -/
def activeTopicsOf (topics : List TopicInfo) : List TopicInfo :=
  topics.filter (fun t => t.topicNumber ≠ -1)

/-- `activeTopics.reduce((sum, t) => sum + t.count, 0)`. -/
def totalPapersOf (topics : List TopicInfo) : ℕ :=
  ((activeTopicsOf topics).map (fun t => t.count)).sum

/-- Loop body of `computeExpectedReturns`: one pass over the active topics
accumulating `(coverage, rarityBonus, breadth)` for direction `d`. -/
def returnStats (A : AffinityMatrix) (d : ℕ) (topics : List TopicInfo) :
    ℚ × ℚ × ℚ :=
  topics.foldl
    (fun acc t =>
      let a := affinityAt A t.topicNumber d
      (acc.1 + (t.count : ℚ) * a,
       acc.2.1 + (if t.rarityLabel = Rarity.RARE then (t.count : ℚ) * a * 2 else 0),
       acc.2.2 + (if (3 : ℚ)/10 < a then 1 else 0)))
    (0, 0, 0)

/-- `computeExpectedReturns` from `skill-mapper.ts`.  The design constants
are `COVERAGE_WEIGHT = 0.5`, `RARITY_WEIGHT = 0.3`, `BREADTH_WEIGHT = 0.2`,
`RARITY_PREMIUM = 2.0`, `AFFINITY_THRESHOLD = 0.3`. -/
def computeExpectedReturns (topics : List TopicInfo) (A : AffinityMatrix) :
    List ℚ :=
  let active := activeTopicsOf topics
  let totalPapers : ℚ := (totalPapersOf topics : ℚ)
  (List.range numDirections).map (fun d =>
    let s := returnStats A d active
    (1/2) * (s.1 / max totalPapers 1)
      + (3/10) * (s.2.1 / max totalPapers 1)
      + (1/5) * (s.2.2 / max (active.length : ℚ) 1))

/-- `vectors[d]` of `computeCovarianceMatrix`: the affinity scores of
direction `d` across the active topics, in topic order
(`affinityMatrix[t] ?? zeros` then index `d`, which is `affinityAt`). -/
def dirVector (topics : List TopicInfo) (A : AffinityMatrix) (d : ℕ) :
    List ℚ :=
  (activeTopicsOf topics).map (fun t => affinityAt A t.topicNumber d)

/-- `means[d] = vectors[d].reduce(..) / vectors[d].length`.  When there are
no active topics this is `0/0`: `NaN` in JavaScript, `0` here; in both
semantics the value is never read (the covariance sum is then empty). -/
def dirMean (topics : List TopicInfo) (A : AffinityMatrix) (d : ℕ) : ℚ :=
  (dirVector topics A d).sum / ((dirVector topics A d).length : ℚ)

/-- `computeCovarianceMatrix` from `skill-mapper.ts`: pairwise sample
covariance of the direction vectors with denominator `max(m - 1, 1)`,
with `0.001` added on the diagonal (the source adds the regularization in
a second loop after filling the matrix; folding it into each entry builds
the same matrix). -/
def computeCovarianceMatrix (topics : List TopicInfo) (A : AffinityMatrix) :
    List (List ℚ) :=
  let m := (activeTopicsOf topics).length
  (List.range numDirections).map (fun i =>
    (List.range numDirections).map (fun j =>
      (List.zipWith
          (fun x y => (x - dirMean topics A i) * (y - dirMean topics A j))
          (dirVector topics A i) (dirVector topics A j)).sum
        / max ((m : ℚ) - 1) 1
      + if i = j then 1/1000 else 0))

/-- Sample covariance of the affinity vectors of directions `i` and `j`,
written as the spec states it: an indexed sum over the active-topic
positions with denominator `max(topicCount - 1, 1)`. -/
def sampleCovSpec (topics : List TopicInfo) (A : AffinityMatrix)
    (i j : ℕ) : ℚ :=
  let m := (activeTopicsOf topics).length
  (Finset.range m).sum
      (fun k =>
        ((dirVector topics A i).getD k 0 - dirMean topics A i)
          * ((dirVector topics A j).getD k 0 - dirMean topics A j))
    / max ((m : ℚ) - 1) 1

/-! ## The optimizer (`optimizePortfolioTS` in the optimize route) -/

/-- One iteration of the projected-gradient loop of `optimizePortfolioTS`:
gradient step (learning rate `0.01`), clip into `[bounds[i][0], bounds[i][1]]`,
renormalize to sum one, and — when the realized return is below the target —
nudge the highest-expected-return direction by `0.01` and renormalize again.
`targetReturn` is `Option ℚ` because the frontier builder passes `NaN`
(modelled as `none`) when `numPoints = 1`; `portReturn < NaN` is false. -/
def gdGrad (expectedReturns : List ℚ) (covMatrix : List (List ℚ))
    (weights : List ℚ) : List ℚ :=
  (List.range expectedReturns.length).map (fun i =>
    ((List.range expectedReturns.length).map
      (fun j => 2 * ((covMatrix.getD i []).getD j 0) * weights.getD j 0)).sum)

/-- `weights[i] -= lr * grad[i]` with `lr = 0.01`. -/
def gdUpdated (expectedReturns : List ℚ) (covMatrix : List (List ℚ))
    (weights : List ℚ) : List ℚ :=
  (List.range expectedReturns.length).map (fun i =>
    weights.getD i 0 - 1/100 * (gdGrad expectedReturns covMatrix weights).getD i 0)

/-- `weights[i] = Math.max(bounds[i][0], Math.min(bounds[i][1], weights[i]))`. -/
def gdClipped (expectedReturns : List ℚ) (covMatrix : List (List ℚ))
    (bounds : List (ℚ × ℚ)) (weights : List ℚ) : List ℚ :=
  (List.range expectedReturns.length).map (fun i =>
    max (bounds.getD i (0, 0)).1
      (min (bounds.getD i (0, 0)).2
        ((gdUpdated expectedReturns covMatrix weights).getD i 0)))

/-- `weights = weights.map((w) => w / sum)` after clipping. -/
def gdNormalized (expectedReturns : List ℚ) (covMatrix : List (List ℚ))
    (bounds : List (ℚ × ℚ)) (weights : List ℚ) : List ℚ :=
  (gdClipped expectedReturns covMatrix bounds weights).map
    (fun x => x / (gdClipped expectedReturns covMatrix bounds weights).sum)

/-- `expectedReturns.indexOf(Math.max(...expectedReturns))` (`0` for the empty
list, where the source would produce index `-1` and a dead write). -/
def jsMaxIdx (expectedReturns : List ℚ) : ℕ :=
  match expectedReturns.max? with
  | some m => expectedReturns.indexOf m
  | none => 0

def gdStep (expectedReturns : List ℚ) (covMatrix : List (List ℚ))
    (targetReturn : Option ℚ) (bounds : List (ℚ × ℚ))
    (weights : List ℚ) : List ℚ :=
  let normalized := gdNormalized expectedReturns covMatrix bounds weights
  let portReturn := (List.zipWith (· * ·) normalized expectedReturns).sum
  let doNudge : Bool :=
    match targetReturn with
    | none => false
    | some t => decide (portReturn < t)
  if doNudge then
    let nudged := normalized.set (jsMaxIdx expectedReturns)
      (normalized.getD (jsMaxIdx expectedReturns) 0 + 1/100)
    nudged.map (fun w => w / nudged.sum)
  else normalized

/-- `optimizePortfolioTS`: start from uniform weights `1/n` and run the
loop body 2000 times. -/
def optimizePortfolioTS (expectedReturns : List ℚ) (covMatrix : List (List ℚ))
    (targetReturn : Option ℚ) (bounds : List (ℚ × ℚ)) : List ℚ :=
  (gdStep expectedReturns covMatrix targetReturn bounds)^[2000]
    (List.replicate expectedReturns.length ((1 : ℚ) / (expectedReturns.length : ℚ)))

/-! ## The frontier builder (`computeEfficientFrontierTS`) -/

/-- `Math.min(...expectedReturns)`, defaulting to `0` on the empty list
(JavaScript yields `Infinity` there; the theorems below assume a nonempty
returns vector, as the six-direction data model guarantees). -/
def jsMinD (l : List ℚ) : ℚ := l.min?.getD 0

/-- `Math.max(...expectedReturns)`, defaulting to `0` on the empty list. -/
def jsMaxD (l : List ℚ) : ℚ := l.max?.getD 0

/-- `minReturn = Math.min(...expectedReturns) * 0.7`. -/
def minReturnTS (expectedReturns : List ℚ) : ℚ := jsMinD expectedReturns * (7/10)

/-- `maxReturn = Math.max(...expectedReturns) * 0.95`. -/
def maxReturnTS (expectedReturns : List ℚ) : ℚ := jsMaxD expectedReturns * (19/20)

/-- The value `minReturn + (i / (numPoints - 1)) * (maxReturn - minReturn)`
of the linear sweep, as a rational (meaningful when `numPoints ≥ 2`). -/
def targetValTS (expectedReturns : List ℚ) (numPoints i : ℕ) : ℚ :=
  minReturnTS expectedReturns
    + ((i : ℚ) / ((numPoints : ℚ) - 1))
      * (maxReturnTS expectedReturns - minReturnTS expectedReturns)

/-- The target return of sweep index `i`.  When `numPoints = 1` the source
divides `0` by `0`, producing `NaN` (modelled as `none`): the resulting
`NaN` target makes every `portReturn < targetReturn` comparison false. -/
def targetReturnAt (expectedReturns : List ℚ) (numPoints i : ℕ) : Option ℚ :=
  if numPoints = 1 then none
  else some (targetValTS expectedReturns numPoints i)

/-- `Math.round(x * 1e4) / 1e4` (JavaScript rounds half toward `+∞`). -/
def round4 (x : ℚ) : ℚ := ((⌊x * 10000 + 1/2⌋ : ℤ) : ℚ) / 10000

/-- `Math.round(x * 1e6) / 1e6`. -/
def round6 (x : ℚ) : ℚ := ((⌊x * 1000000 + 1/2⌋ : ℤ) : ℚ) / 1000000

/-- `Math.round(x * 1e6) / 1e6` on the real-valued risk. -/
noncomputable def roundR6 (x : ℝ) : ℝ := ((⌊x * 1000000 + 1/2⌋ : ℤ) : ℝ) / 1000000

/-- `Math.round(x * 1e4) / 1e4` on the real-valued Sharpe ratio. -/
noncomputable def roundR4 (x : ℝ) : ℝ := ((⌊x * 10000 + 1/2⌋ : ℤ) : ℝ) / 10000

/-- A frontier point as pushed by `computeEfficientFrontierTS`; the source
field names are `risk`, `return`, `weights`, `sharpe_ratio`. -/
structure FrontierPoint where
  risk : ℝ
  ret : ℚ
  weights : List ℚ
  sharpe : ℝ

instance : Inhabited FrontierPoint := ⟨⟨0, 0, [], 0⟩⟩

/-- The optimizer call of one sweep iteration. -/
def portWeightsAt (expectedReturns : List ℚ) (covMatrix : List (List ℚ))
    (bounds : List (ℚ × ℚ)) (target : Option ℚ) : List ℚ :=
  optimizePortfolioTS expectedReturns covMatrix target bounds

/-- `portReturn = weights.reduce((sum, w, idx) => sum + w * expectedReturns[idx], 0)`. -/
def portReturnAt (expectedReturns : List ℚ) (covMatrix : List (List ℚ))
    (bounds : List (ℚ × ℚ)) (target : Option ℚ) : ℚ :=
  (List.zipWith (· * ·) (portWeightsAt expectedReturns covMatrix bounds target)
    expectedReturns).sum

/-- `portVariance = Σ_a Σ_b w[a] * w[b] * covMatrix[a][b]`. -/
def portVarianceAt (expectedReturns : List ℚ) (covMatrix : List (List ℚ))
    (bounds : List (ℚ × ℚ)) (target : Option ℚ) : ℚ :=
  let w := portWeightsAt expectedReturns covMatrix bounds target
  ((List.range w.length).map (fun a =>
    ((List.range w.length).map (fun b =>
      w.getD a 0 * w.getD b 0 * ((covMatrix.getD a []).getD b 0))).sum)).sum

/-- `portRisk = Math.sqrt(Math.max(portVariance, 0))`. -/
noncomputable def portRiskAt (expectedReturns : List ℚ)
    (covMatrix : List (List ℚ)) (bounds : List (ℚ × ℚ))
    (target : Option ℚ) : ℝ :=
  Real.sqrt ((max (portVarianceAt expectedReturns covMatrix bounds target) 0 : ℚ) : ℝ)

/-- `sharpe = portRisk > 1e-8 ? portReturn / portRisk : 0`. -/
noncomputable def sharpeAt (expectedReturns : List ℚ)
    (covMatrix : List (List ℚ)) (bounds : List (ℚ × ℚ))
    (target : Option ℚ) : ℝ :=
  if (1 : ℝ)/100000000 < portRiskAt expectedReturns covMatrix bounds target then
    (portReturnAt expectedReturns covMatrix bounds target : ℝ)
      / portRiskAt expectedReturns covMatrix bounds target
  else 0

/-- The rounded `FrontierPoint` pushed for one target value. -/
noncomputable def frontierPointAt (expectedReturns : List ℚ)
    (covMatrix : List (List ℚ)) (bounds : List (ℚ × ℚ))
    (target : Option ℚ) : FrontierPoint :=
  { risk := roundR6 (portRiskAt expectedReturns covMatrix bounds target)
    ret := round6 (portReturnAt expectedReturns covMatrix bounds target)
    weights := (portWeightsAt expectedReturns covMatrix bounds target).map round4
    sharpe := roundR4 (sharpeAt expectedReturns covMatrix bounds target) }

/-- `computeEfficientFrontierTS`: sweep `i = 0 .. numPoints - 1` and push one
point per target. -/
noncomputable def computeEfficientFrontierTS (expectedReturns : List ℚ)
    (covMatrix : List (List ℚ)) (bounds : List (ℚ × ℚ))
    (numPoints : ℕ) : List FrontierPoint :=
  (List.range numPoints).map (fun i =>
    frontierPointAt expectedReturns covMatrix bounds
      (targetReturnAt expectedReturns numPoints i))

/-! ## The selectors (inline in the `POST` handler) -/

/-- `frontier.reduce((best, p) => p.sharpe_ratio > best.sharpe_ratio ? p : best)`;
`reduce` without an initial value throws on an empty array, modelled by
`none`. -/
noncomputable def selectOptimal (frontier : List FrontierPoint) :
    Option FrontierPoint :=
  match frontier with
  | [] => none
  | h :: t =>
    some (t.foldl (fun best p => if best.sharpe < p.sharpe then p else best) h)

/-- `targetRisk = minRisk + riskTolerance * (maxRisk - minRisk)` computed from
the frontier's first and last points. -/
noncomputable def targetRiskOf (frontier : List FrontierPoint)
    (riskTolerance : ℚ) : ℝ :=
  frontier.headI.risk
    + (riskTolerance : ℝ)
      * ((frontier.getLastD default).risk - frontier.headI.risk)

/-- The risk-tolerance selection of the `POST` handler: the first point when
the frontier has fewer than two points, otherwise the reduce that keeps the
point whose risk is closest to `targetRisk` (`none` on an empty frontier,
where the source reads `frontier[0]` as `undefined`). -/
noncomputable def selectByRiskTolerance (frontier : List FrontierPoint)
    (riskTolerance : ℚ) : Option FrontierPoint :=
  match frontier with
  | [] => none
  | h :: t =>
    match t with
    | [] => some h
    | _ :: _ =>
      some (t.foldl
        (fun closest p =>
          if |p.risk - targetRiskOf (h :: t) riskTolerance|
              < |closest.risk - targetRiskOf (h :: t) riskTolerance| then p
          else closest)
        h)

/-! ## General helper lemmas -/

lemma sum_map_div (l : List ℚ) (s : ℚ) :
    (l.map (fun x => x / s)).sum = l.sum / s := by
  induction l with
  | nil => simp
  | cons a l ih => simp [ih, add_div]

lemma sum_set_of_lt (l : List ℚ) (i : ℕ) (a : ℚ) (h : i < l.length) :
    (l.set i a).sum = l.sum - l.getD i 0 + a := by
  induction l generalizing i with
  | nil => simp at h
  | cons x l ih =>
    cases i with
    | zero => simp [List.set]; ring
    | succ i =>
      simp only [List.set, List.sum_cons, List.getD_cons_succ]
      rw [ih i (by simpa using h)]
      ring

lemma getD_map_range {α : Type} (f : ℕ → α) (N i : ℕ) (h : i < N) (d : α) :
    ((List.range N).map f).getD i d = f i := by
  rw [List.getD_eq_getElem?_getD]
  simp [List.getElem?_map, List.getElem?_range, h]

lemma iterate_const {α : Type} (f : α → α) (c : α) (h : ∀ x, f x = c)
    (k : ℕ) (x : α) : f^[k + 1] x = c := by
  induction k generalizing x with
  | zero => simpa using h x
  | succ k ih => rw [Function.iterate_succ_apply, ih]

/-- `Math.max(a, Math.min(a, x)) = a`: clipping into the degenerate interval
`[a, a]` ignores the incoming value. -/
lemma clamp_degenerate (a x : ℚ) : max a (min a x) = a :=
  max_eq_left (min_le_left _ _)

/-! ## C1: the optimizer's output sums to one -/

lemma gdClipped_pos (μ : List ℚ) (c : List (List ℚ)) (b : List (ℚ × ℚ))
    (w : List ℚ) (hlen : b.length = μ.length)
    (hb : ∀ p ∈ b, 0 < p.1 ∧ p.1 ≤ p.2) :
    ∀ x ∈ gdClipped μ c b w, 0 < x := by
  intro x hx
  rw [gdClipped, List.mem_map] at hx
  obtain ⟨i, hi, rfl⟩ := hx
  rw [List.mem_range] at hi
  have hmem : b.getD i (0, 0) ∈ b := by
    rw [List.getD_eq_getElem b (0, 0) (by omega)]
    exact List.getElem_mem _
  exact lt_of_lt_of_le (hb _ hmem).1 (le_max_left _ _)

lemma gdClipped_length (μ : List ℚ) (c : List (List ℚ)) (b : List (ℚ × ℚ))
    (w : List ℚ) : (gdClipped μ c b w).length = μ.length := by
  simp [gdClipped]

lemma gdNormalized_sum (μ : List ℚ) (c : List (List ℚ)) (b : List (ℚ × ℚ))
    (w : List ℚ) (hne : μ ≠ []) (hlen : b.length = μ.length)
    (hb : ∀ p ∈ b, 0 < p.1 ∧ p.1 ≤ p.2) :
    (gdNormalized μ c b w).sum = 1 := by
  have hcne : gdClipped μ c b w ≠ [] := by
    have := gdClipped_length μ c b w
    intro h
    rw [h] at this
    exact hne (List.length_eq_zero.mp this.symm)
  have hs : 0 < (gdClipped μ c b w).sum :=
    List.sum_pos _ (gdClipped_pos μ c b w hlen hb) hcne
  rw [gdNormalized, sum_map_div, div_self (ne_of_gt hs)]

lemma gdNormalized_length (μ : List ℚ) (c : List (List ℚ)) (b : List (ℚ × ℚ))
    (w : List ℚ) : (gdNormalized μ c b w).length = μ.length := by
  simp [gdNormalized, gdClipped]

lemma jsMaxIdx_lt (μ : List ℚ) (hne : μ ≠ []) : jsMaxIdx μ < μ.length := by
  rw [jsMaxIdx]
  obtain ⟨m, hm⟩ := Option.isSome_iff_exists.mp
    (List.isSome_max?_of_mem (l := μ) (a := μ.headI)
      (by cases μ with
          | nil => exact absurd rfl hne
          | cons a l => exact List.mem_cons_self a l))
  rw [hm]
  exact List.indexOf_lt_length.mpr (List.max?_mem max_choice hm)

lemma gdStep_sum_eq_one (μ : List ℚ) (c : List (List ℚ)) (t : Option ℚ)
    (b : List (ℚ × ℚ)) (w : List ℚ) (hne : μ ≠ [])
    (hlen : b.length = μ.length)
    (hb : ∀ p ∈ b, 0 < p.1 ∧ p.1 ≤ p.2) :
    (gdStep μ c t b w).sum = 1 := by
  have hnorm := gdNormalized_sum μ c b w hne hlen hb
  have hidxlt : jsMaxIdx μ < (gdNormalized μ c b w).length := by
    rw [gdNormalized_length]
    exact jsMaxIdx_lt μ hne
  rw [gdStep.eq_def]
  split
  · -- targetReturn = none: the nudge test is false
    simpa using hnorm
  · -- targetReturn = some t
    dsimp only
    split
    · rw [sum_map_div, sum_set_of_lt _ _ _ hidxlt, hnorm]
      have h101 : ∀ a : ℚ, 1 - a + (a + 1/100) = 101/100 := fun a => by ring
      rw [h101]
      norm_num
    · exact hnorm

/-- C1 (amended): for positive, ordered bounds matching the returns vector in
length, the weight vector returned by `optimizePortfolioTS` sums to exactly 1
(the final operation of every iteration is a renormalization by a positive
sum), hence certainly to 1 within `1e-6`. -/
theorem optimizePortfolio_sum_eq_one (μ : List ℚ) (c : List (List ℚ)) (t : ℚ)
    (b : List (ℚ × ℚ)) (hne : μ ≠ []) (hlen : b.length = μ.length)
    (hb : ∀ p ∈ b, 0 < p.1 ∧ p.1 ≤ p.2) :
    (optimizePortfolioTS μ c (some t) b).sum = 1 := by
  unfold optimizePortfolioTS
  rw [show (2000 : ℕ) = 1999 + 1 from rfl, Function.iterate_succ_apply']
  exact gdStep_sum_eq_one μ c (some t) b _ hne hlen hb

/-- Witness for C1's amended theorem at a concrete input. -/
theorem optimizePortfolio_sum_eq_one_witness :
    (([1] : List ℚ) ≠ [] ∧ ([((1:ℚ)/2, (1:ℚ)/2)].length = ([1] : List ℚ).length)
      ∧ ∀ p ∈ [((1:ℚ)/2, (1:ℚ)/2)], 0 < p.1 ∧ p.1 ≤ p.2)
    ∧ (optimizePortfolioTS [1] [[0]] (some 0) [((1:ℚ)/2, (1:ℚ)/2)]).sum = 1 :=
  ⟨⟨by simp, by simp, by norm_num⟩,
    optimizePortfolio_sum_eq_one [1] [[0]] 0 [((1:ℚ)/2, (1:ℚ)/2)]
      (by simp) (by simp) (by norm_num)⟩

lemma c1ce_clipped (w : List ℚ) :
    gdClipped [0, 0] [[0, 0], [0, 0]]
      [((2:ℚ)/5, (2:ℚ)/5), ((1:ℚ)/10, (1:ℚ)/10)] w = [2/5, 1/10] := by
  simp [gdClipped, List.range_succ, clamp_degenerate]

lemma c1ce_step (w : List ℚ) :
    gdStep [0, 0] [[0, 0], [0, 0]] (some 0)
      [((2:ℚ)/5, (2:ℚ)/5), ((1:ℚ)/10, (1:ℚ)/10)] w = [4/5, 1/5] := by
  have hn : gdNormalized [0, 0] [[0, 0], [0, 0]]
      [((2:ℚ)/5, (2:ℚ)/5), ((1:ℚ)/10, (1:ℚ)/10)] w = [4/5, 1/5] := by
    rw [gdNormalized, c1ce_clipped]
    norm_num
  rw [gdStep.eq_def, hn]
  simp

/-- C1 counterexample: with bounds `[(0.4, 0.4), (0.1, 0.1)]` (which satisfy
`0 < min ≤ max`), zero covariance and zero returns, the optimizer returns
`[0.8, 0.2]`: the renormalization performed after the clipping step pushes the
first weight far above its upper bound plus `1e-6`, so the bounds clause of C1
is false. -/
theorem optimizePortfolio_bounds_counterexample :
    (((0:ℚ) < 2/5 ∧ (2:ℚ)/5 ≤ 2/5) ∧ ((0:ℚ) < 1/10 ∧ (1:ℚ)/10 ≤ 1/10))
    ∧ optimizePortfolioTS [0, 0] [[0, 0], [0, 0]] (some 0)
        [((2:ℚ)/5, (2:ℚ)/5), ((1:ℚ)/10, (1:ℚ)/10)] = [4/5, 1/5]
    ∧ ¬ ((4:ℚ)/5 ≤ 2/5 + 1/1000000) := by
  refine ⟨⟨⟨by norm_num, le_refl _⟩, ⟨by norm_num, le_refl _⟩⟩, ?_, by norm_num⟩
  rw [optimizePortfolioTS, show (2000 : ℕ) = 1999 + 1 from rfl]
  exact iterate_const _ _ c1ce_step 1999 _

/-! ## C2: the expected-return formula -/

lemma sum_map_ite {α : Type} (p : α → Prop) [DecidablePred p] (f : α → ℚ)
    (l : List α) :
    (l.map (fun x => if p x then f x else 0)).sum
      = ((l.filter (fun x => decide (p x))).map f).sum := by
  induction l with
  | nil => simp
  | cons a l ih =>
    by_cases h : p a <;> simp [List.filter_cons, h, ih]

lemma length_filter_eq_sum_ite {α : Type} (p : α → Prop) [DecidablePred p]
    (l : List α) :
    (l.map (fun x => if p x then (1 : ℚ) else 0)).sum
      = ((l.filter (fun x => decide (p x))).length : ℚ) := by
  induction l with
  | nil => simp
  | cons a l ih =>
    by_cases h : p a
    · simp [List.filter_cons, h, ih]
      ring
    · simp [List.filter_cons, h, ih]

lemma returnStats_go (A : AffinityMatrix) (d : ℕ) (l : List TopicInfo)
    (acc : ℚ × ℚ × ℚ) :
    l.foldl
      (fun acc t =>
        let a := affinityAt A t.topicNumber d
        (acc.1 + (t.count : ℚ) * a,
         acc.2.1 + (if t.rarityLabel = Rarity.RARE then (t.count : ℚ) * a * 2 else 0),
         acc.2.2 + (if (3 : ℚ)/10 < a then 1 else 0)))
      acc =
    (acc.1 + (l.map (fun t => (t.count : ℚ) * affinityAt A t.topicNumber d)).sum,
     acc.2.1 + (l.map (fun t =>
       if t.rarityLabel = Rarity.RARE
       then (t.count : ℚ) * affinityAt A t.topicNumber d * 2 else 0)).sum,
     acc.2.2 + (l.map (fun t =>
       if (3 : ℚ)/10 < affinityAt A t.topicNumber d then (1 : ℚ) else 0)).sum) := by
  induction l generalizing acc with
  | nil => simp
  | cons t l ih =>
    rw [List.foldl_cons, ih]
    simp only [List.map_cons, List.sum_cons]
    refine Prod.ext ?_ (Prod.ext ?_ ?_) <;> dsimp <;> ring

lemma returnStats_spec (A : AffinityMatrix) (d : ℕ) (l : List TopicInfo) :
    returnStats A d l =
      ((l.map (fun t => (t.count : ℚ) * affinityAt A t.topicNumber d)).sum,
       ((l.filter (fun t => t.rarityLabel = Rarity.RARE)).map
         (fun t => (t.count : ℚ) * affinityAt A t.topicNumber d * 2)).sum,
       (((l.filter (fun t => (3 : ℚ)/10 < affinityAt A t.topicNumber d)).length : ℚ))) := by
  rw [returnStats, returnStats_go]
  simp only [zero_add]
  refine Prod.ext rfl (Prod.ext ?_ ?_)
  · exact sum_map_ite (fun t => t.rarityLabel = Rarity.RARE)
      (fun t => (t.count : ℚ) * affinityAt A t.topicNumber d * 2) l
  · exact length_filter_eq_sum_ite
      (fun t => (3 : ℚ)/10 < affinityAt A t.topicNumber d) l

/-- C2: `computeExpectedReturns` filters out topic id `-1` and returns, per
direction `d`, exactly
`0.5 * coverage + 0.3 * rarityBonus + 0.2 * breadth`, with coverage the
paper-count-weighted affinity sum over active topics divided by
`max(totalPapers, 1)`, rarityBonus the same sum over RARE topics with each
term doubled and the same denominator, and breadth the count of active topics
with affinity above `0.3` divided by `max(activeCount, 1)`; a missing affinity
entry contributes `0` (built into `affinityAt`). -/
theorem computeExpectedReturns_formula (topics : List TopicInfo)
    (A : AffinityMatrix) (d : ℕ) (hd : d < numDirections) :
    (computeExpectedReturns topics A).getD d 0 =
      (1/2) * (((activeTopicsOf topics).map
          (fun t => (t.count : ℚ) * affinityAt A t.topicNumber d)).sum
        / max ((totalPapersOf topics : ℚ)) 1)
      + (3/10) * ((((activeTopicsOf topics).filter
            (fun t => t.rarityLabel = Rarity.RARE)).map
          (fun t => (t.count : ℚ) * affinityAt A t.topicNumber d * 2)).sum
        / max ((totalPapersOf topics : ℚ)) 1)
      + (1/5) * ((((activeTopicsOf topics).filter
            (fun t => (3 : ℚ)/10 < affinityAt A t.topicNumber d)).length : ℚ)
        / max (((activeTopicsOf topics).length : ℚ)) 1) := by
  rw [computeExpectedReturns]
  dsimp only
  rw [getD_map_range _ _ _ hd, returnStats_spec]

/-- Witness for C2 at a concrete topic list, affinity matrix and direction. -/
theorem computeExpectedReturns_formula_witness :
    (0 : ℕ) < numDirections
    ∧ (computeExpectedReturns
          [⟨0, 10, Rarity.RARE⟩, ⟨-1, 5, Rarity.COMMON⟩]
          (fun t => if t = 0 then some (fun _ => 1) else none)).getD 0 0 =
      (1/2) * (((activeTopicsOf [⟨0, 10, Rarity.RARE⟩, ⟨-1, 5, Rarity.COMMON⟩]).map
          (fun t => (t.count : ℚ)
            * affinityAt (fun t => if t = 0 then some (fun _ => 1) else none)
                t.topicNumber 0)).sum
        / max ((totalPapersOf [⟨0, 10, Rarity.RARE⟩, ⟨-1, 5, Rarity.COMMON⟩] : ℚ)) 1)
      + (3/10) * ((((activeTopicsOf [⟨0, 10, Rarity.RARE⟩, ⟨-1, 5, Rarity.COMMON⟩]).filter
            (fun t => t.rarityLabel = Rarity.RARE)).map
          (fun t => (t.count : ℚ)
            * affinityAt (fun t => if t = 0 then some (fun _ => 1) else none)
                t.topicNumber 0 * 2)).sum
        / max ((totalPapersOf [⟨0, 10, Rarity.RARE⟩, ⟨-1, 5, Rarity.COMMON⟩] : ℚ)) 1)
      + (1/5) * ((((activeTopicsOf [⟨0, 10, Rarity.RARE⟩, ⟨-1, 5, Rarity.COMMON⟩]).filter
            (fun t => (3 : ℚ)/10
              < affinityAt (fun t => if t = 0 then some (fun _ => 1) else none)
                  t.topicNumber 0)).length : ℚ)
        / max (((activeTopicsOf
            [⟨0, 10, Rarity.RARE⟩, ⟨-1, 5, Rarity.COMMON⟩]).length : ℚ)) 1) :=
  ⟨by norm_num [numDirections],
    computeExpectedReturns_formula _ _ 0 (by norm_num [numDirections])⟩

/-! ## C3: covariance symmetry, diagonal regularization, formula -/

lemma dirVector_length (topics : List TopicInfo) (A : AffinityMatrix) (d : ℕ) :
    (dirVector topics A d).length = (activeTopicsOf topics).length := by
  simp [dirVector]

lemma zipWith_sum_eq_range (f : ℚ → ℚ → ℚ) :
    ∀ (xs ys : List ℚ), xs.length = ys.length →
      (List.zipWith f xs ys).sum
        = (Finset.range xs.length).sum (fun k => f (xs.getD k 0) (ys.getD k 0)) := by
  intro xs
  induction xs with
  | nil => intro ys h; simp
  | cons x xs ih =>
    intro ys h
    cases ys with
    | nil => simp at h
    | cons y ys =>
      simp only [List.zipWith_cons_cons, List.sum_cons, List.length_cons]
      rw [Finset.sum_range_succ', ih ys (by simpa using h)]
      simp [add_comm]

lemma covMatrix_entry (topics : List TopicInfo) (A : AffinityMatrix)
    (a b : ℕ) (ha : a < numDirections) (hb : b < numDirections) :
    ((computeCovarianceMatrix topics A).getD a []).getD b 0 =
      (List.zipWith
          (fun x y => (x - dirMean topics A a) * (y - dirMean topics A b))
          (dirVector topics A a) (dirVector topics A b)).sum
        / max (((activeTopicsOf topics).length : ℚ) - 1) 1
      + if a = b then 1/1000 else 0 := by
  rw [computeCovarianceMatrix]
  rw [getD_map_range _ _ _ ha, getD_map_range _ _ _ hb]

lemma covMatrix_entry_spec (topics : List TopicInfo) (A : AffinityMatrix)
    (a b : ℕ) (ha : a < numDirections) (hb : b < numDirections) :
    ((computeCovarianceMatrix topics A).getD a []).getD b 0 =
      sampleCovSpec topics A a b + if a = b then 1/1000 else 0 := by
  rw [covMatrix_entry topics A a b ha hb, sampleCovSpec]
  rw [zipWith_sum_eq_range _ _ _
      (by rw [dirVector_length, dirVector_length]), dirVector_length]

lemma sampleCovSpec_comm (topics : List TopicInfo) (A : AffinityMatrix)
    (a b : ℕ) :
    sampleCovSpec topics A a b = sampleCovSpec topics A b a := by
  rw [sampleCovSpec, sampleCovSpec]
  congr 1
  exact Finset.sum_congr rfl (fun k _ => mul_comm _ _)

lemma sampleCovSpec_diag_nonneg (topics : List TopicInfo) (A : AffinityMatrix)
    (a : ℕ) : 0 ≤ sampleCovSpec topics A a a := by
  rw [sampleCovSpec]
  apply div_nonneg
  · exact Finset.sum_nonneg (fun k _ => mul_self_nonneg _)
  · exact le_of_lt (lt_of_lt_of_le zero_lt_one (le_max_right _ _))

/-- C3: the covariance matrix is symmetric, every diagonal entry is at least
`0.001`, and every entry is the sample covariance of the direction affinity
vectors over the active topics (denominator `max(topicCount - 1, 1)`) plus the
`0.001` diagonal regularization. -/
theorem computeCovarianceMatrix_symm_diag (topics : List TopicInfo)
    (A : AffinityMatrix) (i j : ℕ) (hi : i < numDirections)
    (hj : j < numDirections) :
    ((computeCovarianceMatrix topics A).getD i []).getD j 0
        = ((computeCovarianceMatrix topics A).getD j []).getD i 0
    ∧ (1 : ℚ)/1000 ≤ ((computeCovarianceMatrix topics A).getD i []).getD i 0
    ∧ ((computeCovarianceMatrix topics A).getD i []).getD j 0
        = sampleCovSpec topics A i j + (if i = j then 1/1000 else 0) := by
  refine ⟨?_, ?_, covMatrix_entry_spec topics A i j hi hj⟩
  · rw [covMatrix_entry_spec topics A i j hi hj,
      covMatrix_entry_spec topics A j i hj hi,
      sampleCovSpec_comm]
    congr 1
    simp [eq_comm]
  · rw [covMatrix_entry_spec topics A i i hi hi, if_pos rfl]
    have := sampleCovSpec_diag_nonneg topics A i
    linarith

/-- Witness for C3 at a concrete input. -/
theorem computeCovarianceMatrix_symm_diag_witness :
    ((0 : ℕ) < numDirections ∧ (1 : ℕ) < numDirections)
    ∧ ((computeCovarianceMatrix [⟨2, 3, Rarity.COMMON⟩] (fun _ => none)).getD 0 []).getD 1 0
        = ((computeCovarianceMatrix [⟨2, 3, Rarity.COMMON⟩] (fun _ => none)).getD 1 []).getD 0 0
    ∧ (1 : ℚ)/1000
        ≤ ((computeCovarianceMatrix [⟨2, 3, Rarity.COMMON⟩] (fun _ => none)).getD 0 []).getD 0 0
    ∧ ((computeCovarianceMatrix [⟨2, 3, Rarity.COMMON⟩] (fun _ => none)).getD 0 []).getD 1 0
        = sampleCovSpec [⟨2, 3, Rarity.COMMON⟩] (fun _ => none) 0 1
          + (if (0 : ℕ) = 1 then 1/1000 else 0) :=
  ⟨⟨by norm_num [numDirections], by norm_num [numDirections]⟩,
    (computeCovarianceMatrix_symm_diag _ _ 0 1 (by norm_num [numDirections])
      (by norm_num [numDirections])).1,
    (computeCovarianceMatrix_symm_diag _ _ 0 1 (by norm_num [numDirections])
      (by norm_num [numDirections])).2.1,
    (computeCovarianceMatrix_symm_diag _ _ 0 1 (by norm_num [numDirections])
      (by norm_num [numDirections])).2.2⟩

/-! ## C7: empty topic list -/

/-- C7: on the empty topic list both aggregator functions are total and
degrade to zeros: the expected returns are `[0,0,0,0,0,0]` and the covariance
matrix is `0.001` on the diagonal and `0` elsewhere. -/
theorem skillMapper_empty_topics (A : AffinityMatrix) (i j : ℕ)
    (hi : i < numDirections) (hj : j < numDirections) :
    computeExpectedReturns [] A = List.replicate numDirections 0
    ∧ (computeCovarianceMatrix [] A).length = numDirections
    ∧ ((computeCovarianceMatrix [] A).getD i []).getD j 0
        = if i = j then (1 : ℚ)/1000 else 0 := by
  refine ⟨?_, by simp [computeCovarianceMatrix], ?_⟩
  · rw [computeExpectedReturns]
    simp [activeTopicsOf, returnStats, totalPapersOf, List.map_const']
  · rw [covMatrix_entry [] A i j hi hj]
    simp [dirVector, activeTopicsOf]

/-- Witness for C7 at a concrete affinity matrix and index pair. -/
theorem skillMapper_empty_topics_witness :
    ((0 : ℕ) < numDirections ∧ (1 : ℕ) < numDirections)
    ∧ computeExpectedReturns [] (fun _ => some (fun _ => 1))
        = List.replicate numDirections 0
    ∧ (computeCovarianceMatrix [] (fun _ => some (fun _ => 1))).length
        = numDirections
    ∧ ((computeCovarianceMatrix [] (fun _ => some (fun _ => 1))).getD 0 []).getD 1 0
        = if (0 : ℕ) = 1 then (1 : ℚ)/1000 else 0 :=
  ⟨⟨by norm_num [numDirections], by norm_num [numDirections]⟩,
    (skillMapper_empty_topics _ 0 1 (by norm_num [numDirections])
      (by norm_num [numDirections])).1,
    (skillMapper_empty_topics _ 0 1 (by norm_num [numDirections])
      (by norm_num [numDirections])).2.1,
    (skillMapper_empty_topics _ 0 1 (by norm_num [numDirections])
      (by norm_num [numDirections])).2.2⟩

/-! ## C4: frontier size and target sweep -/

lemma jsMinD_spec (l : List ℚ) (h : l ≠ []) :
    jsMinD l ∈ l ∧ ∀ x ∈ l, jsMinD l ≤ x := by
  haveI anti : Std.Antisymm ((· : ℚ) ≤ ·) :=
    ⟨fun h1 h2 => le_antisymm h1 h2⟩
  obtain ⟨m, hm⟩ := Option.isSome_iff_exists.mp
    (List.isSome_min?_of_mem (l := l) (a := l.headI)
      (by cases l with
          | nil => exact absurd rfl h
          | cons a t => exact List.mem_cons_self a t))
  have hm' := (List.min?_eq_some_iff (fun a => le_refl a)
    (fun a b => min_choice a b) (fun a b c => le_min_iff)).mp hm
  rw [jsMinD, hm]
  simpa using hm'

lemma jsMaxD_spec (l : List ℚ) (h : l ≠ []) :
    jsMaxD l ∈ l ∧ ∀ x ∈ l, x ≤ jsMaxD l := by
  haveI anti : Std.Antisymm ((· : ℚ) ≤ ·) :=
    ⟨fun h1 h2 => le_antisymm h1 h2⟩
  obtain ⟨m, hm⟩ := Option.isSome_iff_exists.mp
    (List.isSome_max?_of_mem (l := l) (a := l.headI)
      (by cases l with
          | nil => exact absurd rfl h
          | cons a t => exact List.mem_cons_self a t))
  have hm' := (List.max?_eq_some_iff (fun a => le_refl a)
    (fun a b => max_choice a b) (fun a b c => max_le_iff)).mp hm
  rw [jsMaxD, hm]
  simpa using hm'

lemma minReturn_le_maxReturn (μ : List ℚ) (hne : μ ≠ [])
    (hnn : ∀ x ∈ μ, 0 ≤ x) : minReturnTS μ ≤ maxReturnTS μ := by
  obtain ⟨hmem, hmin⟩ := jsMinD_spec μ hne
  obtain ⟨hmemM, hmax⟩ := jsMaxD_spec μ hne
  have h0 : 0 ≤ jsMinD μ := hnn _ hmem
  have hle : jsMinD μ ≤ jsMaxD μ := hmax _ hmem
  rw [minReturnTS, maxReturnTS]
  nlinarith

/-- C4: with `numPoints = N ≥ 2` the frontier has exactly `N` points, each
target of the sweep is the rational
`minReturn + (i/(N-1)) * (maxReturn - minReturn)`, the sweep includes both
endpoints (`i = 0` gives `minReturn`, `i = N-1` gives `maxReturn`), and —
whenever every expected return is non-negative and the returns vector is
nonempty — the target sequence is non-decreasing. -/
theorem computeEfficientFrontier_count_targets (μ : List ℚ)
    (c : List (List ℚ)) (b : List (ℚ × ℚ)) (N : ℕ) (h2 : 2 ≤ N) :
    (computeEfficientFrontierTS μ c b N).length = N
    ∧ (∀ i : ℕ, targetReturnAt μ N i = some (targetValTS μ N i))
    ∧ targetValTS μ N 0 = minReturnTS μ
    ∧ targetValTS μ N (N - 1) = maxReturnTS μ
    ∧ (μ ≠ [] → (∀ x ∈ μ, 0 ≤ x) →
        ∀ i j : ℕ, i ≤ j → targetValTS μ N i ≤ targetValTS μ N j) := by
  have hN1 : ((N : ℚ) - 1) ≠ 0 := by
    have : (2 : ℚ) ≤ (N : ℚ) := by exact_mod_cast h2
    linarith
  have hN1pos : (0 : ℚ) < (N : ℚ) - 1 := by
    have : (2 : ℚ) ≤ (N : ℚ) := by exact_mod_cast h2
    linarith
  refine ⟨by simp [computeEfficientFrontierTS],
    fun i => if_neg (by omega), by simp [targetValTS],
    ?_, ?_⟩
  · rw [targetValTS]
    rw [show (((N - 1 : ℕ) : ℚ)) = (N : ℚ) - 1 by
      rw [Nat.cast_sub (by omega)]; norm_num]
    rw [div_self hN1]
    ring
  · intro hne hnn i j hij
    have hΔ : 0 ≤ maxReturnTS μ - minReturnTS μ :=
      sub_nonneg.mpr (minReturn_le_maxReturn μ hne hnn)
    rw [targetValTS, targetValTS]
    have hdiv : (i : ℚ) / ((N : ℚ) - 1) ≤ (j : ℚ) / ((N : ℚ) - 1) :=
      (div_le_div_iff_of_pos_right hN1pos).mpr (by exact_mod_cast hij)
    have := mul_le_mul_of_nonneg_right hdiv hΔ
    linarith

/-- Witness for C4 at a concrete input. -/
theorem computeEfficientFrontier_count_targets_witness :
    (2 ≤ 2)
    ∧ ((computeEfficientFrontierTS [0] [] [] 2).length = 2
      ∧ (∀ i : ℕ, targetReturnAt [0] 2 i = some (targetValTS [0] 2 i))
      ∧ targetValTS [0] 2 0 = minReturnTS [0]
      ∧ targetValTS [0] 2 (2 - 1) = maxReturnTS [0]
      ∧ (([0] : List ℚ) ≠ [] → (∀ x ∈ ([0] : List ℚ), 0 ≤ x) →
          ∀ i j : ℕ, i ≤ j → targetValTS [0] 2 i ≤ targetValTS [0] 2 j)) :=
  ⟨by norm_num,
    computeEfficientFrontier_count_targets [0] [] [] 2 (by norm_num)⟩

/-! ## C5: the `numPoints = 1` frontier -/

lemma frontier_getD (μ : List ℚ) (c : List (List ℚ)) (b : List (ℚ × ℚ))
    (N i : ℕ) (hi : i < N) :
    (computeEfficientFrontierTS μ c b N).getD i default
      = frontierPointAt μ c b (targetReturnAt μ N i) := by
  rw [computeEfficientFrontierTS]
  exact getD_map_range _ _ _ hi _

/-- C5 (amended): `computeEfficientFrontierTS` with `numPoints = 1` returns
exactly one point, and that point is computed with the `NaN` target produced
by `0 / (numPoints - 1)` — a target for which the return-constraint nudge
never fires.  It is not, in general, the point computed at
`targetReturn = minReturn` (see the counterexample). -/
theorem computeEfficientFrontier_one_point_nan_target (μ : List ℚ)
    (c : List (List ℚ)) (b : List (ℚ × ℚ)) :
    computeEfficientFrontierTS μ c b 1 = [frontierPointAt μ c b none] := by
  rw [computeEfficientFrontierTS]
  simp [List.range_succ, targetReturnAt]

lemma c5ce_clipped (w : List ℚ) :
    gdClipped [-1, -2] [[0, 0], [0, 0]]
      [((3:ℚ)/10, (3:ℚ)/10), ((3:ℚ)/5, (3:ℚ)/5)] w = [3/10, 3/5] := by
  simp [gdClipped, List.range_succ, clamp_degenerate]

lemma c5ce_norm (w : List ℚ) :
    gdNormalized [-1, -2] [[0, 0], [0, 0]]
      [((3:ℚ)/10, (3:ℚ)/10), ((3:ℚ)/5, (3:ℚ)/5)] w = [1/3, 2/3] := by
  rw [gdNormalized, c5ce_clipped]
  norm_num

lemma c5ce_step_none (w : List ℚ) :
    gdStep [-1, -2] [[0, 0], [0, 0]] none
      [((3:ℚ)/10, (3:ℚ)/10), ((3:ℚ)/5, (3:ℚ)/5)] w = [1/3, 2/3] := by
  rw [gdStep.eq_def, c5ce_norm]
  simp

lemma c5ce_step_some (w : List ℚ) :
    gdStep [-1, -2] [[0, 0], [0, 0]] (some (-7/5))
      [((3:ℚ)/10, (3:ℚ)/10), ((3:ℚ)/5, (3:ℚ)/5)] w = [103/303, 200/303] := by
  rw [gdStep.eq_def, c5ce_norm]
  have hidx : jsMaxIdx [(-1 : ℚ), -2] = 0 := by decide
  simp only [hidx]
  norm_num [List.set]

lemma c5ce_opt_none :
    optimizePortfolioTS [-1, -2] [[0, 0], [0, 0]] none
      [((3:ℚ)/10, (3:ℚ)/10), ((3:ℚ)/5, (3:ℚ)/5)] = [1/3, 2/3] := by
  rw [optimizePortfolioTS, show (2000 : ℕ) = 1999 + 1 from rfl]
  exact iterate_const _ _ c5ce_step_none 1999 _

lemma c5ce_opt_some :
    optimizePortfolioTS [-1, -2] [[0, 0], [0, 0]] (some (-7/5))
      [((3:ℚ)/10, (3:ℚ)/10), ((3:ℚ)/5, (3:ℚ)/5)] = [103/303, 200/303] := by
  rw [optimizePortfolioTS, show (2000 : ℕ) = 1999 + 1 from rfl]
  exact iterate_const _ _ c5ce_step_some 1999 _

/-- C5 counterexample: with expected returns `[-1, -2]` the single point
returned for `numPoints = 1` (computed with the `NaN` target, nudge inactive)
differs from the point computed at `targetReturn = minReturn = -1.4` (where
the nudge fires every iteration): the published weights are
`[0.3333, 0.6667]` versus `[0.3399, 0.66]`-ish. -/
theorem computeEfficientFrontier_numPoints_one_counterexample :
    minReturnTS [(-1 : ℚ), -2] = -7/5
    ∧ computeEfficientFrontierTS [-1, -2] [[0, 0], [0, 0]]
        [((3:ℚ)/10, (3:ℚ)/10), ((3:ℚ)/5, (3:ℚ)/5)] 1
      ≠ [frontierPointAt [-1, -2] [[0, 0], [0, 0]]
          [((3:ℚ)/10, (3:ℚ)/10), ((3:ℚ)/5, (3:ℚ)/5)]
          (some (minReturnTS [(-1 : ℚ), -2]))] := by
  have hmin : minReturnTS [(-1 : ℚ), -2] = -7/5 := by
    rw [minReturnTS, jsMinD]
    norm_num [List.min?_cons', List.foldl, min_def]
  refine ⟨hmin, ?_⟩
  rw [hmin, computeEfficientFrontier_one_point_nan_target]
  intro h
  have hp := List.head_eq_of_cons_eq h
  have hw := congrArg FrontierPoint.weights hp
  rw [frontierPointAt, frontierPointAt] at hw
  dsimp only at hw
  rw [portWeightsAt, portWeightsAt, c5ce_opt_none, c5ce_opt_some] at hw
  exact absurd hw (by norm_num [round4])

/-! ## C6: Sharpe ratio at (near-)zero risk -/

/-- C6 (amended): whenever the pre-rounding risk `portRisk = sqrt(max(V, 0))`
of a sweep iteration is at most `1e-8`, the published `sharpe_ratio` field of
the corresponding frontier point is `0`.  (The claim's condition on the
rounded `risk` field is weaker and fails, see the counterexample: rounding to
six decimals can turn a raw risk of up to `5e-7` into a `risk` field of `0`.) -/
theorem sharpe_zero_of_raw_risk_small (μ : List ℚ) (c : List (List ℚ))
    (b : List (ℚ × ℚ)) (N i : ℕ) (hi : i < N)
    (hrisk : portRiskAt μ c b (targetReturnAt μ N i) ≤ 1/100000000) :
    ((computeEfficientFrontierTS μ c b N).getD i default).sharpe = 0 := by
  rw [frontier_getD μ c b N i hi, frontierPointAt]
  dsimp only
  rw [sharpeAt, if_neg (not_lt.mpr hrisk), roundR4]
  rw [zero_mul, zero_add]
  norm_num

lemma c6w_clipped (w : List ℚ) :
    gdClipped [0] [[0]] [((1:ℚ)/2, (1:ℚ)/2)] w = [1/2] := by
  simp [gdClipped, List.range_succ, clamp_degenerate]

lemma c6w_step (w : List ℚ) :
    gdStep [0] [[0]] (some 0) [((1:ℚ)/2, (1:ℚ)/2)] w = [1] := by
  have hn : gdNormalized [0] [[0]] [((1:ℚ)/2, (1:ℚ)/2)] w = [1] := by
    rw [gdNormalized, c6w_clipped]
    norm_num
  rw [gdStep.eq_def, hn]
  simp

lemma c6w_opt :
    optimizePortfolioTS [0] [[0]] (some 0) [((1:ℚ)/2, (1:ℚ)/2)] = [1] := by
  rw [optimizePortfolioTS, show (2000 : ℕ) = 1999 + 1 from rfl]
  exact iterate_const _ _ c6w_step 1999 _

lemma c6w_target : targetReturnAt [0] 2 0 = some 0 := by
  rw [targetReturnAt, if_neg (by norm_num), targetValTS, minReturnTS,
    maxReturnTS, jsMinD, jsMaxD]
  norm_num [List.min?_cons', List.max?_cons', List.foldl]

lemma c6w_risk :
    portRiskAt [0] [[0]] [((1:ℚ)/2, (1:ℚ)/2)] (targetReturnAt [0] 2 0)
      ≤ 1/100000000 := by
  have hV : portVarianceAt [0] [[0]] [((1:ℚ)/2, (1:ℚ)/2)]
      (targetReturnAt [0] 2 0) = 0 := by
    rw [portVarianceAt, portWeightsAt, c6w_target, c6w_opt]
    norm_num [List.range_succ]
  rw [portRiskAt, hV]
  norm_num [Real.sqrt_zero]

/-- Witness for C6's amended theorem. -/
theorem sharpe_zero_of_raw_risk_small_witness :
    ((0 : ℕ) < 2
      ∧ portRiskAt [0] [[0]] [((1:ℚ)/2, (1:ℚ)/2)] (targetReturnAt [0] 2 0)
          ≤ 1/100000000)
    ∧ ((computeEfficientFrontierTS [0] [[0]] [((1:ℚ)/2, (1:ℚ)/2)] 2).getD 0
        default).sharpe = 0 :=
  ⟨⟨by norm_num, c6w_risk⟩,
    sharpe_zero_of_raw_risk_small [0] [[0]] [((1:ℚ)/2, (1:ℚ)/2)] 2 0
      (by norm_num) c6w_risk⟩

lemma c6ce_clipped (w : List ℚ) :
    gdClipped [1/10000000] [[1/100000000000000]] [((1:ℚ)/2, (1:ℚ)/2)] w
      = [1/2] := by
  simp [gdClipped, List.range_succ, clamp_degenerate]

lemma c6ce_step (w : List ℚ) :
    gdStep [1/10000000] [[1/100000000000000]] (some (7/100000000))
      [((1:ℚ)/2, (1:ℚ)/2)] w = [1] := by
  have hn : gdNormalized [1/10000000] [[1/100000000000000]]
      [((1:ℚ)/2, (1:ℚ)/2)] w = [1] := by
    rw [gdNormalized, c6ce_clipped]
    norm_num
  rw [gdStep.eq_def, hn]
  norm_num

lemma c6ce_opt :
    optimizePortfolioTS [1/10000000] [[1/100000000000000]]
      (some (7/100000000)) [((1:ℚ)/2, (1:ℚ)/2)] = [1] := by
  rw [optimizePortfolioTS, show (2000 : ℕ) = 1999 + 1 from rfl]
  exact iterate_const _ _ c6ce_step 1999 _

lemma c6ce_target :
    targetReturnAt [1/10000000] 2 0 = some (7/100000000) := by
  rw [targetReturnAt, if_neg (by norm_num), targetValTS, minReturnTS,
    maxReturnTS, jsMinD, jsMaxD]
  norm_num [List.min?_cons', List.max?_cons', List.foldl]

lemma c6ce_weights :
    portWeightsAt [1/10000000] [[1/100000000000000]] [((1:ℚ)/2, (1:ℚ)/2)]
      (targetReturnAt [1/10000000] 2 0) = [1] := by
  rw [portWeightsAt, c6ce_target, c6ce_opt]

lemma c6ce_risk :
    portRiskAt [1/10000000] [[1/100000000000000]] [((1:ℚ)/2, (1:ℚ)/2)]
      (targetReturnAt [1/10000000] 2 0) = 1/10000000 := by
  have hV : portVarianceAt [1/10000000] [[1/100000000000000]]
      [((1:ℚ)/2, (1:ℚ)/2)] (targetReturnAt [1/10000000] 2 0)
      = 1/100000000000000 := by
    rw [portVarianceAt, c6ce_weights]
    norm_num [List.range_succ]
  rw [portRiskAt, hV]
  rw [show ((max ((1:ℚ)/100000000000000) 0 : ℚ) : ℝ) = ((1/10000000 : ℝ))^2 by
    push_cast [max_eq_left (by norm_num : (0:ℚ) ≤ 1/100000000000000)]
    norm_num]
  exact Real.sqrt_sq (by norm_num)

/-- C6 counterexample: at returns `[1e-7]`, covariance `[[1e-14]]` and bounds
`[(0.5, 0.5)]` the first frontier point has raw risk `1e-7`, so its `risk`
field rounds to `0 < 1e-8`, while its `sharpe_ratio` field is `1`, not `0`:
the claim over the rounded `risk` field is false. -/
theorem sharpe_nonzero_rounded_risk_counterexample :
    (computeEfficientFrontierTS [1/10000000] [[1/100000000000000]]
        [((1:ℚ)/2, (1:ℚ)/2)] 2).length = 2
    ∧ ((computeEfficientFrontierTS [1/10000000] [[1/100000000000000]]
        [((1:ℚ)/2, (1:ℚ)/2)] 2).getD 0 default).risk < 1/100000000
    ∧ ((computeEfficientFrontierTS [1/10000000] [[1/100000000000000]]
        [((1:ℚ)/2, (1:ℚ)/2)] 2).getD 0 default).sharpe ≠ 0 := by
  have hret : portReturnAt [1/10000000] [[1/100000000000000]]
      [((1:ℚ)/2, (1:ℚ)/2)] (targetReturnAt [1/10000000] 2 0)
      = 1/10000000 := by
    rw [portReturnAt, c6ce_weights]
    norm_num
  refine ⟨by simp [computeEfficientFrontierTS], ?_, ?_⟩
  · rw [frontier_getD _ _ _ 2 0 (by norm_num), frontierPointAt]
    dsimp only
    rw [c6ce_risk, roundR6]
    rw [show (1/10000000 : ℝ) * 1000000 + 1/2 = 3/5 by norm_num]
    norm_num
  · rw [frontier_getD _ _ _ 2 0 (by norm_num), frontierPointAt]
    dsimp only
    rw [sharpeAt, c6ce_risk, if_pos (by norm_num), hret, roundR4]
    push_cast
    rw [show (1/10000000 : ℝ) / (1/10000000) = 1 by norm_num]
    norm_num

/-! ## C8: best-Sharpe selection -/

/-- The strict-improvement fold (`p.score > best.score ? p : best`) returns
the element attaining the maximum of `g` over `a :: t` at the earliest
position: every element scores at most the result, and everything strictly
before the result scores strictly below it. -/
lemma foldl_argmax_strict {α : Type} [Inhabited α] (g : α → ℝ) :
    ∀ (t : List α) (a : α), ∃ i, i < (a :: t).length
      ∧ t.foldl (fun best p => if g best < g p then p else best) a
          = (a :: t).getD i default
      ∧ (∀ q ∈ a :: t, g q ≤ g ((a :: t).getD i default))
      ∧ (∀ q ∈ (a :: t).take i, g q < g ((a :: t).getD i default)) := by
  intro t
  induction t with
  | nil =>
    intro a
    refine ⟨0, by simp, by simp, ?_, by simp⟩
    intro q hq
    rw [List.mem_singleton] at hq
    subst hq
    simp
  | cons p t ih =>
    intro a
    rw [List.foldl_cons]
    by_cases hlt : g a < g p
    · rw [if_pos hlt]
      obtain ⟨i, hi, heq, hmax, hstrict⟩ := ih p
      refine ⟨i + 1, by simpa using hi, by simpa using heq, ?_, ?_⟩
      · intro q hq
        rw [List.getD_cons_succ]
        rcases List.mem_cons.mp hq with hqa | hq'
        · subst hqa
          exact le_of_lt (lt_of_lt_of_le hlt
            (hmax p (List.mem_cons_self _ _)))
        · exact hmax q hq'
      · intro q hq
        rw [List.take_succ_cons] at hq
        rw [List.getD_cons_succ]
        rcases List.mem_cons.mp hq with hqa | hq'
        · subst hqa
          exact lt_of_lt_of_le hlt (hmax p (List.mem_cons_self _ _))
        · exact hstrict q hq'
    · rw [if_neg hlt]
      obtain ⟨i, hi, heq, hmax, hstrict⟩ := ih a
      cases i with
      | zero =>
        rw [List.getD_cons_zero] at heq hmax
        refine ⟨0, by simp, by simpa using heq, ?_, by simp⟩
        intro q hq
        rw [List.getD_cons_zero]
        rcases List.mem_cons.mp hq with hqa | hq'
        · subst hqa
          exact hmax _ (List.mem_cons_self _ _)
        rcases List.mem_cons.mp hq' with hqp | hq''
        · subst hqp
          exact not_lt.mp hlt
        · exact hmax q (List.mem_cons_of_mem _ hq'')
      | succ k =>
        rw [List.getD_cons_succ] at heq hmax hstrict
        rw [List.take_succ_cons] at hstrict
        have hak : g a < g (t.getD k default) :=
          hstrict a (List.mem_cons_self _ _)
        refine ⟨k + 2, by simpa using hi, by simpa using heq, ?_, ?_⟩
        · intro q hq
          rw [List.getD_cons_succ, List.getD_cons_succ]
          rcases List.mem_cons.mp hq with hqa | hq'
          · subst hqa
            exact le_of_lt hak
          rcases List.mem_cons.mp hq' with hqp | hq''
          · subst hqp
            exact le_of_lt (lt_of_le_of_lt (not_lt.mp hlt) hak)
          · exact hmax q (List.mem_cons_of_mem _ hq'')
        · intro q hq
          rw [List.take_succ_cons, List.take_succ_cons] at hq
          rw [List.getD_cons_succ, List.getD_cons_succ]
          rcases List.mem_cons.mp hq with hqa | hq'
          · subst hqa
            exact hak
          rcases List.mem_cons.mp hq' with hqp | hq''
          · subst hqp
            exact lt_of_le_of_lt (not_lt.mp hlt) hak
          · exact hstrict q (List.mem_cons_of_mem _ hq'')

/-- C8: `selectOptimal` (the best-Sharpe reduce of the `POST` handler) returns
the frontier point with the maximum `sharpe_ratio`, and on ties the one at
the earliest index (every strictly earlier point has a strictly smaller
Sharpe ratio). -/
theorem selectOptimal_max_sharpe (fr : List FrontierPoint) (hne : fr ≠ []) :
    ∃ p i, selectOptimal fr = some p ∧ i < fr.length ∧ p = fr.getD i default
      ∧ (∀ q ∈ fr, q.sharpe ≤ p.sharpe)
      ∧ (∀ q ∈ fr.take i, q.sharpe < p.sharpe) := by
  cases fr with
  | nil => exact absurd rfl hne
  | cons h t =>
    obtain ⟨i, hi, heq, hmax, hstrict⟩ :=
      foldl_argmax_strict FrontierPoint.sharpe t h
    refine ⟨(h :: t).getD i default, i, ?_, hi, rfl, hmax, hstrict⟩
    rw [selectOptimal]
    exact congrArg some heq

/-- Witness for C8 on a one-point frontier. -/
theorem selectOptimal_max_sharpe_witness :
    (([(default : FrontierPoint)] : List FrontierPoint) ≠ [])
    ∧ ∃ p i, selectOptimal [(default : FrontierPoint)] = some p
      ∧ i < ([(default : FrontierPoint)] : List FrontierPoint).length
      ∧ p = ([(default : FrontierPoint)] : List FrontierPoint).getD i default
      ∧ (∀ q ∈ ([(default : FrontierPoint)] : List FrontierPoint),
          q.sharpe ≤ p.sharpe)
      ∧ (∀ q ∈ ([(default : FrontierPoint)] : List FrontierPoint).take i,
          q.sharpe < p.sharpe) :=
  ⟨by simp, selectOptimal_max_sharpe [default] (by simp)⟩

/-! ## C9: risk-tolerance selection -/

/-- The keep-unless-strictly-closer fold returns an element of `a :: t`
minimizing `f`. -/
lemma foldl_argmin_mem {α : Type} (f : α → ℝ) :
    ∀ (t : List α) (a : α),
      (t.foldl (fun closest p => if f p < f closest then p else closest) a)
          ∈ a :: t
      ∧ ∀ q ∈ a :: t,
          f (t.foldl (fun closest p => if f p < f closest then p else closest) a)
            ≤ f q := by
  intro t
  induction t with
  | nil =>
    intro a
    refine ⟨List.mem_singleton_self a, ?_⟩
    intro q hq
    rw [List.mem_singleton] at hq
    subst hq
    exact le_refl _
  | cons p t ih =>
    intro a
    rw [List.foldl_cons]
    by_cases h : f p < f a
    · rw [if_pos h]
      obtain ⟨hmem, hmin⟩ := ih p
      refine ⟨?_, ?_⟩
      · rcases List.mem_cons.mp hmem with hm | hm
        · rw [hm]
          exact List.mem_cons_of_mem _ (List.mem_cons_self _ _)
        · exact List.mem_cons_of_mem _ (List.mem_cons_of_mem _ hm)
      · intro q hq
        rcases List.mem_cons.mp hq with hqa | hq'
        · subst hqa
          exact le_of_lt (lt_of_le_of_lt (hmin p (List.mem_cons_self _ _)) h)
        · exact hmin q hq'
    · rw [if_neg h]
      obtain ⟨hmem, hmin⟩ := ih a
      refine ⟨?_, ?_⟩
      · rcases List.mem_cons.mp hmem with hm | hm
        · rw [hm]
          exact List.mem_cons_self _ _
        · exact List.mem_cons_of_mem _ (List.mem_cons_of_mem _ hm)
      · intro q hq
        rcases List.mem_cons.mp hq with hqa | hq'
        · subst hqa
          exact hmin _ (List.mem_cons_self _ _)
        rcases List.mem_cons.mp hq' with hqp | hq''
        · subst hqp
          exact le_trans (hmin _ (List.mem_cons_self _ _)) (not_lt.mp h)
        · exact hmin q (List.mem_cons_of_mem _ hq'')

/-- C9: with at least two frontier points, `selectByRiskTolerance` returns a
frontier point whose `risk` is closest (by absolute difference) to
`targetRisk = minRisk + riskTolerance * (maxRisk - minRisk)` computed from
the first and last points; with fewer than two points it returns the first
point unconditionally. -/
theorem selectByRiskTolerance_closest (fr : List FrontierPoint) (rt : ℚ)
    (_hrt : 0 ≤ rt ∧ rt ≤ 1) :
    (2 ≤ fr.length →
      ∃ p, selectByRiskTolerance fr rt = some p ∧ p ∈ fr
        ∧ ∀ q ∈ fr,
            |p.risk - targetRiskOf fr rt| ≤ |q.risk - targetRiskOf fr rt|)
    ∧ (fr.length < 2 → selectByRiskTolerance fr rt = fr.head?) := by
  constructor
  · intro h2
    match fr with
    | [] => simp at h2
    | [h] => simp at h2
    | h :: p2 :: t =>
      obtain ⟨hmem, hmin⟩ :=
        foldl_argmin_mem
          (fun q => |q.risk - targetRiskOf (h :: p2 :: t) rt|) (p2 :: t) h
      exact ⟨_, rfl, hmem, hmin⟩
  · intro hlt
    match fr with
    | [] => rfl
    | [h] => rfl
    | h :: p2 :: t =>
      rw [List.length_cons, List.length_cons] at hlt
      omega

/-- Witness for C9 on a one-point frontier. -/
theorem selectByRiskTolerance_closest_witness :
    ((0 : ℚ) ≤ 0 ∧ (0 : ℚ) ≤ 1)
    ∧ (2 ≤ ([(default : FrontierPoint)] : List FrontierPoint).length →
        ∃ p, selectByRiskTolerance [(default : FrontierPoint)] 0 = some p
          ∧ p ∈ ([(default : FrontierPoint)] : List FrontierPoint)
          ∧ ∀ q ∈ ([(default : FrontierPoint)] : List FrontierPoint),
              |p.risk - targetRiskOf [(default : FrontierPoint)] 0|
                ≤ |q.risk - targetRiskOf [(default : FrontierPoint)] 0|)
    ∧ (([(default : FrontierPoint)] : List FrontierPoint).length < 2 →
        selectByRiskTolerance [(default : FrontierPoint)] 0
          = ([(default : FrontierPoint)] : List FrontierPoint).head?) :=
  ⟨⟨le_refl 0, by norm_num⟩,
    (selectByRiskTolerance_closest [default] 0 ⟨le_refl 0, by norm_num⟩).1,
    (selectByRiskTolerance_closest [default] 0 ⟨le_refl 0, by norm_num⟩).2⟩

/-! ## C10: published weights are rounded to four decimals -/

lemma round4_err (x : ℚ) : |round4 x - x| ≤ 1/20000 := by
  rw [round4]
  have h1 : (x * 10000 + 1/2) - 1 < ((⌊x * 10000 + 1/2⌋ : ℤ) : ℚ) :=
    Int.sub_one_lt_floor _
  have h2 : ((⌊x * 10000 + 1/2⌋ : ℤ) : ℚ) ≤ x * 10000 + 1/2 :=
    Int.floor_le _
  rw [abs_le]
  constructor
  · linarith
  · linarith

lemma sum_map_round4_err (l : List ℚ) :
    |(l.map round4).sum - l.sum| ≤ (l.length : ℚ) * (1/20000) := by
  induction l with
  | nil => simp
  | cons a l ih =>
    simp only [List.map_cons, List.sum_cons, List.length_cons]
    have habs : |round4 a + (l.map round4).sum - (a + l.sum)|
        ≤ |round4 a - a| + |(l.map round4).sum - l.sum| := by
      have := abs_add (round4 a - a) ((l.map round4).sum - l.sum)
      have harr : round4 a + (l.map round4).sum - (a + l.sum)
          = (round4 a - a) + ((l.map round4).sum - l.sum) := by ring
      rw [harr]
      exact this
    have hcast : ((l.length + 1 : ℕ) : ℚ) = (l.length : ℚ) + 1 := by
      push_cast
      ring
    rw [hcast]
    have := round4_err a
    linarith

lemma gdStep_length (μ : List ℚ) (c : List (List ℚ)) (t : Option ℚ)
    (b : List (ℚ × ℚ)) (w : List ℚ) : (gdStep μ c t b w).length = μ.length := by
  rw [gdStep.eq_def]
  split
  · simp [gdNormalized, gdClipped]
  · dsimp only
    split
    · simp [gdNormalized, gdClipped]
    · simp [gdNormalized, gdClipped]

lemma optimizePortfolioTS_length (μ : List ℚ) (c : List (List ℚ))
    (t : Option ℚ) (b : List (ℚ × ℚ)) :
    (optimizePortfolioTS μ c t b).length = μ.length := by
  rw [optimizePortfolioTS, show (2000 : ℕ) = 1999 + 1 from rfl,
    Function.iterate_succ_apply']
  exact gdStep_length μ c t b _

lemma c10d_clipped (w : List ℚ) :
    gdClipped [0, 0, 0] [[0, 0, 0], [0, 0, 0], [0, 0, 0]]
      [((1:ℚ), (1:ℚ)), (1, 1), (1, 1)] w = [1, 1, 1] := by
  simp [gdClipped, List.range_succ, clamp_degenerate]

lemma c10d_step (w : List ℚ) :
    gdStep [0, 0, 0] [[0, 0, 0], [0, 0, 0], [0, 0, 0]] (some 0)
      [((1:ℚ), (1:ℚ)), (1, 1), (1, 1)] w = [1/3, 1/3, 1/3] := by
  have hn : gdNormalized [0, 0, 0] [[0, 0, 0], [0, 0, 0], [0, 0, 0]]
      [((1:ℚ), (1:ℚ)), (1, 1), (1, 1)] w = [1/3, 1/3, 1/3] := by
    rw [gdNormalized, c10d_clipped]
    norm_num
  rw [gdStep.eq_def, hn]
  simp

lemma c10d_opt :
    optimizePortfolioTS [0, 0, 0] [[0, 0, 0], [0, 0, 0], [0, 0, 0]] (some 0)
      [((1:ℚ), (1:ℚ)), (1, 1), (1, 1)] = [1/3, 1/3, 1/3] := by
  rw [optimizePortfolioTS, show (2000 : ℕ) = 1999 + 1 from rfl]
  exact iterate_const _ _ c10d_step 1999 _

lemma c10d_target : targetReturnAt [0, 0, 0] 2 0 = some 0 := by
  rw [targetReturnAt, if_neg (by norm_num), targetValTS, minReturnTS,
    maxReturnTS, jsMinD, jsMaxD]
  norm_num [List.min?_cons', List.max?_cons', List.foldl]

/-- C10: every published weight of a frontier point is the optimizer's weight
rounded half-up to four decimals, so for the six-direction returns vector the
published weight sum differs from the raw weight sum by at most
`6 * 5e-5 = 3e-4`; and exact sum-to-one is not preserved by the rounding (at
uniform weights `1/3` over three directions the published sum is `0.9999`). -/
theorem frontier_weights_rounding (μ : List ℚ) (c : List (List ℚ))
    (b : List (ℚ × ℚ)) (N i : ℕ) (hi : i < N) (h6 : μ.length = 6) :
    ((computeEfficientFrontierTS μ c b N).getD i default).weights
        = (portWeightsAt μ c b (targetReturnAt μ N i)).map round4
    ∧ |((portWeightsAt μ c b (targetReturnAt μ N i)).map round4).sum
        - (portWeightsAt μ c b (targetReturnAt μ N i)).sum| ≤ 3/10000
    ∧ ((computeEfficientFrontierTS [0, 0, 0] [[0, 0, 0], [0, 0, 0], [0, 0, 0]]
          [((1:ℚ), (1:ℚ)), (1, 1), (1, 1)] 2).getD 0 default).weights.sum
        ≠ 1 := by
  refine ⟨?_, ?_, ?_⟩
  · rw [frontier_getD μ c b N i hi, frontierPointAt]
  · have hlen : (portWeightsAt μ c b (targetReturnAt μ N i)).length = 6 := by
      rw [portWeightsAt, optimizePortfolioTS_length]
      exact h6
    have hbound := sum_map_round4_err (portWeightsAt μ c b (targetReturnAt μ N i))
    rw [hlen] at hbound
    linarith
  · rw [frontier_getD _ _ _ 2 0 (by norm_num), frontierPointAt]
    dsimp only
    rw [portWeightsAt, c10d_target, c10d_opt]
    norm_num [round4]

/-- Witness for C10 at a concrete input. -/
theorem frontier_weights_rounding_witness :
    ((0 : ℕ) < 1 ∧ ([(0:ℚ), 0, 0, 0, 0, 0] : List ℚ).length = 6)
    ∧ (((computeEfficientFrontierTS [(0:ℚ), 0, 0, 0, 0, 0] [] [] 1).getD 0
          default).weights
        = (portWeightsAt [(0:ℚ), 0, 0, 0, 0, 0] [] []
            (targetReturnAt [(0:ℚ), 0, 0, 0, 0, 0] 1 0)).map round4
      ∧ |((portWeightsAt [(0:ℚ), 0, 0, 0, 0, 0] [] []
            (targetReturnAt [(0:ℚ), 0, 0, 0, 0, 0] 1 0)).map round4).sum
          - (portWeightsAt [(0:ℚ), 0, 0, 0, 0, 0] [] []
              (targetReturnAt [(0:ℚ), 0, 0, 0, 0, 0] 1 0)).sum| ≤ 3/10000
      ∧ ((computeEfficientFrontierTS [0, 0, 0] [[0, 0, 0], [0, 0, 0], [0, 0, 0]]
            [((1:ℚ), (1:ℚ)), (1, 1), (1, 1)] 2).getD 0 default).weights.sum
          ≠ 1) :=
  ⟨⟨by norm_num, by simp⟩,
    frontier_weights_rounding [(0:ℚ), 0, 0, 0, 0, 0] [] [] 1 0
      (by norm_num) (by simp)⟩
